import Mathlib

/-!
Verification of the luma-forge image-editing pipeline.

The definitions below are a shallow embedding of:
* the pixel-processing functions `createLUT`, `applyCurves`,
  `applyColorAdjustments`, `applyConvolution` (src/unnamed/part_004 and the
  byte-identical inline worker copies in src/lib/store.ts lines 739-953);
* the worker `onmessage` pipeline (src/lib/store.ts lines 902-952);
* the zustand editor store actions (src/lib/store.ts lines 394-604);
* the buffer hand-off of `processImageInWorker`
  (src/lib/image-processing/canvas-utils.ts lines 121-173).

JS numbers are modelled as rationals.  The single operation that can
produce an irrational value, `Math.pow(2, exposure / 100)`, is modelled by
an abstract parameter `pow2 : ℚ → ℚ`; every theorem that needs its value
only uses `pow2 0 = 1`, which holds exactly in IEEE-754 arithmetic.
All other arithmetic in the source is exact on the rationals we evaluate
it at, so the ℚ model is faithful for the properties proved here.
-/

namespace LumaForge

/-! ## Byte conversion primitives -/

/-- The clamp helper (part_004 line 6): `Math.max(0, Math.min(255, value))`. -/
def clamp (v : ℚ) : ℚ := max 0 (min 255 v)

/-- Storing a JS number into a `Uint8ClampedArray` slot rounds to the
nearest integer with ties to even (WebIDL `[Clamp]` octet conversion). -/
def roundTiesEven (q : ℚ) : ℤ :=
  if q - ⌊q⌋ < 1/2 then ⌊q⌋
  else if 1/2 < q - ⌊q⌋ then ⌊q⌋ + 1
  else if ⌊q⌋ % 2 = 0 then ⌊q⌋ else ⌊q⌋ + 1

/-- The combined effect of `data[i] = clamp(v)` on a `Uint8ClampedArray`. -/
def toByte (q : ℚ) : ℕ := (roundTiesEven (clamp q)).toNat

theorem roundTiesEven_nonneg {q : ℚ} (h : 0 ≤ q) : 0 ≤ roundTiesEven q := by
  have h0 : (0 : ℤ) ≤ ⌊q⌋ := Int.floor_nonneg.mpr h
  unfold roundTiesEven
  split
  · exact h0
  · split
    · omega
    · split <;> omega

theorem roundTiesEven_le255 {q : ℚ} (h : q ≤ 255) : roundTiesEven q ≤ 255 := by
  have h1 : ⌊q⌋ ≤ 255 := by
    have := Int.floor_le_floor h
    simpa using this
  unfold roundTiesEven
  split
  · exact h1
  · rename_i hlt
    have hq2 : (⌊q⌋ : ℚ) + 1/2 ≤ q := by linarith [not_lt.mp hlt]
    have hfl : (⌊q⌋ : ℚ) ≤ 509/2 := by linarith
    have h2 : ⌊q⌋ < 255 := by
      have : (⌊q⌋ : ℚ) < 255 := lt_of_le_of_lt hfl (by norm_num)
      exact_mod_cast this
    split
    · omega
    · split <;> omega

theorem clamp_nonneg (q : ℚ) : 0 ≤ clamp q := le_max_left 0 _

theorem clamp_le255 (q : ℚ) : clamp q ≤ 255 :=
  max_le (by norm_num) (min_le_left _ _)

theorem toByte_le255 (q : ℚ) : toByte q ≤ 255 := by
  have h := roundTiesEven_le255 (clamp_le255 q)
  unfold toByte
  omega

theorem roundTiesEven_intCast (n : ℤ) : roundTiesEven (n : ℚ) = n := by
  unfold roundTiesEven
  rw [Int.floor_intCast]
  simp

/-- On an integer value already in byte range the clamped store is the
identity; this is why exact no-op passes leave pixels untouched. -/
theorem toByte_natCast {n : ℕ} (h : n ≤ 255) : toByte (n : ℚ) = n := by
  have hc : clamp (n : ℚ) = (n : ℚ) := by
    unfold clamp
    rw [min_eq_right (by exact_mod_cast h), max_eq_right (by positivity)]
  rw [toByte, hc]
  rw [show ((n : ℚ)) = ((n : ℤ) : ℚ) by push_cast; ring, roundTiesEven_intCast]
  simp

/-! ## Curves and adjustments data model (store.ts lines 10-31) -/

structure Point where
  x : ℚ
  y : ℚ
deriving DecidableEq

structure Curves where
  master : List Point
  red : List Point
  green : List Point
  blue : List Point
deriving DecidableEq

structure ImageAdjustments where
  exposure : ℚ
  contrast : ℚ
  saturation : ℚ
  temperature : ℚ
  tint : ℚ
  highlights : ℚ
  shadows : ℚ
  whiteBalance : ℚ
  sharpness : ℚ
  blur : ℚ
  curves : Curves
deriving DecidableEq

/-- The identity curve `[(0,0),(1,1)]` used for all four default curves
(store.ts lines 77-82). -/
def identityCurve : List Point := [⟨0, 0⟩, ⟨1, 1⟩]

def DEFAULT_CURVES : Curves := ⟨identityCurve, identityCurve, identityCurve, identityCurve⟩

/-- DEFAULT_ADJUSTMENTS (store.ts lines 84-96): all scalars 0, identity
curves (the JSON deep-copy of DEFAULT_CURVES is value-identical). -/
def DEFAULT_ADJUSTMENTS : ImageAdjustments :=
  ⟨0, 0, 0, 0, 0, 0, 0, 0, 0, 0, DEFAULT_CURVES⟩

/-- The documented slider ranges (spec section 3): the eight color scalars
in [-100,100], sharpness and blur in [0,100]. -/
def AdjustmentsInRange (adj : ImageAdjustments) : Prop :=
  -100 ≤ adj.exposure ∧ adj.exposure ≤ 100 ∧
  -100 ≤ adj.contrast ∧ adj.contrast ≤ 100 ∧
  -100 ≤ adj.saturation ∧ adj.saturation ≤ 100 ∧
  -100 ≤ adj.temperature ∧ adj.temperature ≤ 100 ∧
  -100 ≤ adj.tint ∧ adj.tint ≤ 100 ∧
  -100 ≤ adj.highlights ∧ adj.highlights ≤ 100 ∧
  -100 ≤ adj.shadows ∧ adj.shadows ≤ 100 ∧
  -100 ≤ adj.whiteBalance ∧ adj.whiteBalance ≤ 100 ∧
  0 ≤ adj.sharpness ∧ adj.sharpness ≤ 100 ∧
  0 ≤ adj.blur ∧ adj.blur ≤ 100

instance : DecidablePred AdjustmentsInRange := fun adj => by
  unfold AdjustmentsInRange; infer_instance

/-! ## createLUT (part_004 lines 8-37; identical worker copy store.ts 742-765) -/

/-- Stable insertion: `q` stays in front of `p` exactly when `q.x ≤ p.x`.
Models one step of `[...points].sort((a, b) => a.x - b.x)` —
`Array.prototype.sort` is a stable sort keyed here on `x`. -/
def insertByX (p : Point) : List Point → List Point
  | [] => [p]
  | q :: rest => if q.x ≤ p.x then q :: insertByX p rest else p :: q :: rest

/-- The sorted copy `[...points].sort((a, b) => a.x - b.x)` as a stable
insertion sort. -/
def sortByX (points : List Point) : List Point := points.foldr insertByX []

/-- The bracketing-segment scan of createLUT (part_004 lines 17-27):
`p0`/`p1` start as first/last sorted point and the first pair with
`sorted[j].x ≤ x ≤ sorted[j+1].x` wins. -/
def findSeg (x : ℚ) : List Point → Point × Point → Point × Point
  | p :: q :: rest, dflt =>
    if p.x ≤ x ∧ x ≤ q.x then (p, q) else findSeg x (q :: rest) dflt
  | _, dflt => dflt

/-- One LUT entry (part_004 lines 14-35): `x = i/255`, bracketing segment,
linear interpolation (`t = 0` on a zero-width segment), then
`clamp(Math.round(y*255))`; `Math.round` is `⌊· + 1/2⌋`, which is
Mathlib's `round`. -/
def lutEntry (sorted : List Point) (p0dflt p1dflt : Point) (i : ℕ) : ℕ :=
  let x : ℚ := (i : ℚ) / 255
  let pq := findSeg x sorted (p0dflt, p1dflt)
  let rangeW := pq.2.x - pq.1.x
  let t := if rangeW = 0 then 0 else (x - pq.1.x) / rangeW
  let y := pq.1.y + t * (pq.2.y - pq.1.y)
  (max 0 (min 255 (round (y * 255)))).toNat

/-- createLUT.  On the empty point list `sorted[0]` is `undefined` and the
source throws a TypeError at `p1.x - p0.x` (part_004 line 30); that crash
is modelled as `none`.  Otherwise the result is the 256-entry table. -/
def createLUT (points : List Point) : Option (List ℕ) :=
  match sortByX points with
  | [] => none
  | p :: rest =>
    some ((List.range 256).map (lutEntry (p :: rest) p ((p :: rest).getLastD p)))

theorem clampInt_le255 (z : ℤ) : (max 0 (min 255 z)).toNat ≤ 255 := by
  omega

theorem lutEntry_le255 (sorted : List Point) (p0dflt p1dflt : Point) (i : ℕ) :
    lutEntry sorted p0dflt p1dflt i ≤ 255 :=
  clampInt_le255 _

/-! ## Rasters (ImageData: RGBA8, row-major) -/

/-- One RGBA pixel, i.e. four consecutive bytes of a `Uint8ClampedArray`. -/
structure Pixel where
  r : ℕ
  g : ℕ
  b : ℕ
  a : ℕ
deriving DecidableEq

def zeroPixel : Pixel := ⟨0, 0, 0, 0⟩

/-- A width/height tagged RGBA8 buffer (`ImageData`). -/
structure Raster where
  width : ℕ
  height : ℕ
  data : List Pixel
deriving DecidableEq

/-- Every channel of the pixel is a byte, as `Uint8ClampedArray` storage
guarantees. -/
def PixelWf (p : Pixel) : Prop :=
  p.r ≤ 255 ∧ p.g ≤ 255 ∧ p.b ≤ 255 ∧ p.a ≤ 255

instance : DecidablePred PixelWf := fun p => by
  unfold PixelWf; infer_instance

/-- The per-pixel loops `for (i = 0; i < data.length; i += 4)` of the curve
and color passes, which touch each RGBA quadruple independently. -/
def mapPixels (f : Pixel → Pixel) (img : Raster) : Raster :=
  ⟨img.width, img.height, img.data.map f⟩

/-! ## applyCurves (part_004 lines 39-58; worker copy store.ts 767-784) -/

/-- One pixel through the four LUTs: the channel curves are applied first,
then the master curve is applied to the already-channel-mapped values
(part_004 lines 47-56).  Alpha is untouched.  `getD _ 0` models the JS
indexing `lut[data[i]]`, always in range for byte inputs. -/
def curvesPixel (masterLUT redLUT greenLUT blueLUT : List ℕ) (p : Pixel) : Pixel :=
  let r1 := redLUT.getD p.r 0
  let g1 := greenLUT.getD p.g 0
  let b1 := blueLUT.getD p.b 0
  ⟨masterLUT.getD r1 0, masterLUT.getD g1 0, masterLUT.getD b1 0, p.a⟩

/-- applyCurves: builds the four LUTs, then maps every pixel; `none` if a
LUT build throws (empty point list). -/
def applyCurves (img : Raster) (curves : Curves) : Option Raster :=
  (createLUT curves.master).bind fun masterLUT =>
  (createLUT curves.red).bind fun redLUT =>
  (createLUT curves.green).bind fun greenLUT =>
  (createLUT curves.blue).bind fun blueLUT =>
  some (mapPixels (curvesPixel masterLUT redLUT greenLUT blueLUT) img)

/-! ## applyColorAdjustments (part_004 lines 64-154; worker copy 786-859) -/

/-- The numeric chain of the color pass on one pixel's r,g,b values
(part_004 lines 79-148), before the final clamped stores.  `pow2` models
`Math.pow(2, ·)`.  The two tone-mapping branches multiply sequentially and
both use the `lum` computed before either scaling, exactly as in the
source; a branch whose guard fails contributes factor 1. -/
def colorMath (pow2 : ℚ → ℚ) (adj : ImageAdjustments) (r0 g0 b0 : ℚ) : ℚ × ℚ × ℚ :=
  let exposureMultiplier := pow2 (adj.exposure / 100)
  let contrastFactor := (259 * (adj.contrast + 255)) / (255 * (259 - adj.contrast))
  let satMult := 1 + adj.saturation / 100
  let rw : ℚ := 3086 / 10000
  let rg : ℚ := 6094 / 10000
  let rb : ℚ := 820 / 10000
  let temp := adj.temperature / 100
  let rTemp := if 0 < temp then 1 + temp * (4 / 10) else 1
  let bTemp := if temp < 0 then 1 - temp * (4 / 10) else 1
  let tnt := adj.tint / 100
  let gTint := 1 + tnt * (2 / 10)
  let r1 := r0 * exposureMultiplier
  let g1 := g0 * exposureMultiplier
  let b1 := b0 * exposureMultiplier
  let r2 := contrastFactor * (r1 - 128) + 128
  let g2 := contrastFactor * (g1 - 128) + 128
  let b2 := contrastFactor * (b1 - 128) + 128
  let r3 := r2 * rTemp
  let g3 := g2 * gTint
  let b3 := b2 * bTemp
  let gray := r3 * rw + g3 * rg + b3 * rb
  let r4 := gray + (r3 - gray) * satMult
  let g4 := gray + (g3 - gray) * satMult
  let b4 := gray + (b3 - gray) * satMult
  let wbFactor := adj.whiteBalance / 100
  let r5 := if adj.whiteBalance ≠ 0 then r4 * (1 - wbFactor * (15 / 100)) else r4
  let g5 := if adj.whiteBalance ≠ 0 then g4 * (1 - wbFactor * (1 / 10)) else g4
  let b5 := if adj.whiteBalance ≠ 0 then b4 * (1 + wbFactor * (3 / 10)) else b4
  let lum := (r5 + g5 + b5) / 3
  let hFactor := if 128 < lum ∧ adj.highlights ≠ 0 then
      1 + adj.highlights / 200 * ((lum - 128) / 128) else 1
  let sFactor := if lum < 128 ∧ adj.shadows ≠ 0 then
      1 + adj.shadows / 200 * ((128 - lum) / 128) else 1
  if adj.highlights ≠ 0 ∨ adj.shadows ≠ 0 then
    (r5 * hFactor * sFactor, g5 * hFactor * sFactor, b5 * hFactor * sFactor)
  else (r5, g5, b5)

/-- The color pass on one pixel: the chain above followed by the three
clamped `Uint8ClampedArray` stores (part_004 lines 150-152); alpha is
never written. -/
def applyColorAdjustmentsPixel (pow2 : ℚ → ℚ) (adj : ImageAdjustments) (p : Pixel) : Pixel :=
  let rgb := colorMath pow2 adj (p.r : ℚ) (p.g : ℚ) (p.b : ℚ)
  ⟨toByte rgb.1, toByte rgb.2.1, toByte rgb.2.2, p.a⟩

/-- applyColorAdjustments: the in-place per-pixel loop. -/
def applyColorAdjustments (pow2 : ℚ → ℚ) (img : Raster) (adj : ImageAdjustments) : Raster :=
  mapPixels (applyColorAdjustmentsPixel pow2 adj) img

/-! ## applyConvolution (part_004 lines 156-199; worker copy 861-900) -/

/-- Math.round(Math.sqrt n) for a natural n: the floor square root,
bumped when the fractional part of √n is at least one half
(`n > r² + r` iff `√n > r + 1/2` for integers).  Exact ties are
impossible because `(r + 1/2)²` is never an integer. -/
def jsSqrtRound (n : ℕ) : ℕ :=
  let r := ((List.range (n + 2)).filter (fun k => k * k ≤ n)).length - 1
  if r * r + r < n then r + 1 else r

/-- One channel of the kernel accumulation (part_004 lines 172-190): taps
whose source coordinate falls outside the raster are skipped with no
renormalization.  The source accumulates r,g,b,a in one loop; the four
independent sums are identical to four per-channel sums. -/
def convChan (img : Raster) (kernel : List ℚ) (side halfSide : ℕ)
    (x y : ℕ) (sel : Pixel → ℕ) : ℚ :=
  (List.range side).foldl (fun acc (cy : ℕ) =>
    (List.range side).foldl (fun acc2 (cx : ℕ) =>
      let scy : ℤ := (y : ℤ) + cy - halfSide
      let scx : ℤ := (x : ℤ) + cx - halfSide
      if 0 ≤ scy ∧ scy < img.height ∧ 0 ≤ scx ∧ scx < img.width then
        acc2 + (sel (img.data.getD (scy.toNat * img.width + scx.toNat) zeroPixel) : ℚ) *
          kernel.getD (cy * side + cx) 0
      else acc2) acc) 0

/-- applyConvolution: a fresh output raster; every output channel goes
through `clamp`, and alpha is forced to 255 when `opq` (the source's
`opaque` flag, which defaults to true at both call sites).  The output
pixel at `(x, y)` sits at index `y*width + x`. -/
def applyConvolution (img : Raster) (kernel : List ℚ) (opq : Bool) : Raster :=
  let side := jsSqrtRound kernel.length
  let halfSide := side / 2
  let w := img.width
  let h := img.height
  ⟨w, h, (List.range (h * w)).map (fun idx =>
    let y := idx / w
    let x := idx % w
    ⟨toByte (convChan img kernel side halfSide x y Pixel.r),
     toByte (convChan img kernel side halfSide x y Pixel.g),
     toByte (convChan img kernel side halfSide x y Pixel.b),
     if opq then 255 else toByte (convChan img kernel side halfSide x y Pixel.a)⟩)⟩

/-! ## The worker pipeline (store.ts lines 902-952) -/

/-- The 3×3 box blur built when `adjustments.blur > 0` (store.ts 918-925):
every cell is the constant `1/9`; the `blur` magnitude is not used. -/
def boxBlurKernel : List ℚ :=
  [1/9, 1/9, 1/9, 1/9, 1/9, 1/9, 1/9, 1/9, 1/9]

/-- The unsharp kernel built when `adjustments.sharpness > 0`
(store.ts 928-934), with `s = sharpness / 100`. -/
def sharpenKernel (s : ℚ) : List ℚ :=
  [0, -1 * s, 0, -1 * s, 1 + 4 * s, -1 * s, 0, -1 * s, 0]

/-- The 3×3 identity kernel of spec section 8, property 5. -/
def identityKernel : List ℚ := [0, 0, 0, 0, 1, 0, 0, 0, 0]

/-- The worker `onmessage` pipeline: color pass, curve pass (the
`adjustments.curves` object is always truthy), box blur when `blur > 0`,
unsharp when `sharpness > 0`.  `none` models the catch branch posting
`success: false` (reachable only through the curve pass). -/
def workerProcess (pow2 : ℚ → ℚ) (img : Raster) (adj : ImageAdjustments) : Option Raster :=
  let img1 := applyColorAdjustments pow2 img adj
  (applyCurves img1 adj.curves).map fun img2 =>
    let img3 := if 0 < adj.blur then applyConvolution img2 boxBlurKernel true else img2
    if 0 < adj.sharpness then applyConvolution img3 (sharpenKernel (adj.sharpness / 100)) true
    else img3

/-! ## The editor store (store.ts lines 33-604)

The zustand store state is `{ images, currentImageId }` (the transient
`isLoading` flag is never read or written by the actions modelled here).
Image ids are produced by `generateId()` from environment randomness; the
model takes the fresh id as an explicit argument.  A `Partial<...>` spread
`{ ...current, ...updates }` is modelled by the update function it
denotes.  `currentImageId = none` models the JS-falsy ids (`null`,
`undefined`, `""`) that make `if (!state.currentImageId)` return early. -/

structure CropState where
  x : ℚ
  y : ℚ
  width : ℚ
  height : ℚ
  rotation : ℚ
  aspectRatio : ℚ
  sourceWidth : ℚ
  sourceHeight : ℚ
deriving DecidableEq

/-- DEFAULT_CROP (store.ts lines 98-107). -/
def DEFAULT_CROP : CropState := ⟨0, 0, 0, 0, 0, 1, 0, 0⟩

/-- One history entry: the pre-mutation `(adjustments, crop)` snapshot. -/
structure Snapshot where
  adjustments : ImageAdjustments
  crop : CropState
deriving DecidableEq

def defaultSnapshot : Snapshot := ⟨DEFAULT_ADJUSTMENTS, DEFAULT_CROP⟩

/-- One entry of `images` (the `ImageData` interface, store.ts 44-53). -/
structure StoreImage where
  id : String
  originalImage : String
  previewImage : Option String
  processedImage : Option String
  adjustments : ImageAdjustments
  crop : CropState
  history : List Snapshot
  historyIndex : ℤ
deriving DecidableEq

structure Store where
  images : List StoreImage
  currentImageId : Option String
deriving DecidableEq

/-- createImageData (store.ts lines 374-386), with the generated uuid
passed in. -/
def createImageData (id imageData : String) : StoreImage :=
  ⟨id, imageData, none, some imageData, DEFAULT_ADJUSTMENTS, DEFAULT_CROP, [], -1⟩

/-- The initial store state (store.ts lines 397-398). -/
def initialStore : Store := ⟨[], none⟩

/-- getCurrentImage (store.ts lines 389-392). -/
def getCurrentImage (s : Store) : Option StoreImage :=
  match s.currentImageId with
  | none => none
  | some id => s.images.find? (fun img => img.id == id)

def setImage (id imageData : String) (s : Store) : Store :=
  { s with images := [createImageData id imageData], currentImageId := some id }

def addImage (id imageData : String) (s : Store) : Store :=
  { s with images := s.images ++ [createImageData id imageData],
           currentImageId := some id }

/-- removeImage (store.ts lines 435-450). -/
def removeImage (imageId : String) (s : Store) : Store :=
  let newImages := s.images.filter (fun img => img.id != imageId)
  let newCurrentId :=
    if s.currentImageId == some imageId then
      match newImages with
      | [] => none
      | img :: _ => some img.id
    else s.currentImageId
  ⟨newImages, newCurrentId⟩

def setCurrentImage (imageId : String) (s : Store) : Store :=
  { s with currentImageId := some imageId }

/-- The per-image update map every mutating action uses:
`state.images.map(img => img.id === id ? { ...img, CHANGES } : img)`. -/
def updateImage (id : String) (F : StoreImage → StoreImage) (l : List StoreImage) :
    List StoreImage :=
  l.map (fun img => if img.id == id then F img else img)

def setPreviewImage (imageData : String) (s : Store) : Store :=
  match s.currentImageId with
  | none => s
  | some id =>
    { s with images := (updateImage id
        (fun img => { img with previewImage := some imageData }) s.images) }

def setProcessedImage (imageData : String) (s : Store) : Store :=
  match s.currentImageId with
  | none => s
  | some id =>
    { s with images := (updateImage id
        (fun img => { img with processedImage := some imageData }) s.images) }

/-- updateAdjustments (store.ts lines 482-505): commits the pre-mutation
snapshot — `history.slice(0, historyIndex + 1)` truncates any redo branch,
then the old `(adjustments, crop)` is pushed and the cursor moves to the
new end.  `slice` with a non-negative end index is `take`; under the
history invariant `historyIndex + 1 ≥ 0` always holds. -/
def updateAdjustments (f : ImageAdjustments → ImageAdjustments) (s : Store) : Store :=
  match s.currentImageId with
  | none => s
  | some id =>
    match s.images.find? (fun img => img.id == id) with
    | none => s
    | some current =>
      let newAdjustments := f current.adjustments
      let newHistory := current.history.take (current.historyIndex + 1).toNat ++
        [⟨current.adjustments, current.crop⟩]
      { s with images := (updateImage id
          (fun img =>
            { img with
              adjustments := newAdjustments
              history := newHistory
              historyIndex := (newHistory.length : ℤ) - 1 }) s.images) }

/-- updateCrop (store.ts lines 507-530): same commit discipline. -/
def updateCrop (f : CropState → CropState) (s : Store) : Store :=
  match s.currentImageId with
  | none => s
  | some id =>
    match s.images.find? (fun img => img.id == id) with
    | none => s
    | some current =>
      let newCrop := f current.crop
      let newHistory := current.history.take (current.historyIndex + 1).toNat ++
        [⟨current.adjustments, current.crop⟩]
      { s with images := (updateImage id
          (fun img =>
            { img with
              crop := newCrop
              history := newHistory
              historyIndex := (newHistory.length : ℤ) - 1 }) s.images) }

/-- undo (store.ts lines 532-552).  `history[historyIndex]` is modelled by
`getD`; the source would throw on an out-of-range read, which the history
invariant rules out on reachable stores. -/
def undo (s : Store) : Store :=
  match s.currentImageId with
  | none => s
  | some id =>
    match s.images.find? (fun img => img.id == id) with
    | none => s
    | some current =>
      if current.historyIndex < 0 then s
      else
        let previousState := current.history.getD current.historyIndex.toNat defaultSnapshot
        { s with images := (updateImage id
            (fun img =>
              { img with
                adjustments := previousState.adjustments
                crop := previousState.crop
                historyIndex := current.historyIndex - 1 }) s.images) }

/-- redo (store.ts lines 554-574). -/
def redo (s : Store) : Store :=
  match s.currentImageId with
  | none => s
  | some id =>
    match s.images.find? (fun img => img.id == id) with
    | none => s
    | some current =>
      if (current.history.length : ℤ) - 1 ≤ current.historyIndex then s
      else
        let nextState := current.history.getD (current.historyIndex + 1).toNat defaultSnapshot
        { s with images := (updateImage id
            (fun img =>
              { img with
                adjustments := nextState.adjustments
                crop := nextState.crop
                historyIndex := current.historyIndex + 1 }) s.images) }

/-- reset (store.ts lines 576-596): back to defaults with empty history;
no `getCurrentImage` guard, the per-image map just never matches when the
id is stale. -/
def reset (s : Store) : Store :=
  match s.currentImageId with
  | none => s
  | some id =>
    { s with images := (updateImage id
        (fun img =>
          { img with
            adjustments := DEFAULT_ADJUSTMENTS
            crop := DEFAULT_CROP
            history := []
            historyIndex := -1 }) s.images) }

def clearAll (_s : Store) : Store := ⟨[], none⟩

/-- Stores reachable from the initial state through the store actions.
The id handed to setImage/addImage comes from `generateId()`
(`crypto.randomUUID`), so a newly added image's id never collides with an
existing one; the addImage rule carries that freshness fact. -/
inductive Reachable : Store → Prop
  | init : Reachable initialStore
  | setImage (id data : String) {s : Store} : Reachable s → Reachable (setImage id data s)
  | addImage (id data : String) {s : Store} (hfresh : ∀ img ∈ s.images, img.id ≠ id) :
      Reachable s → Reachable (addImage id data s)
  | removeImage (id : String) {s : Store} : Reachable s → Reachable (removeImage id s)
  | setCurrentImage (id : String) {s : Store} :
      Reachable s → Reachable (setCurrentImage id s)
  | setPreviewImage (d : String) {s : Store} :
      Reachable s → Reachable (setPreviewImage d s)
  | setProcessedImage (d : String) {s : Store} :
      Reachable s → Reachable (setProcessedImage d s)
  | updateAdjustments (f : ImageAdjustments → ImageAdjustments) {s : Store} :
      Reachable s → Reachable (updateAdjustments f s)
  | updateCrop (f : CropState → CropState) {s : Store} :
      Reachable s → Reachable (updateCrop f s)
  | undo {s : Store} : Reachable s → Reachable (undo s)
  | redo {s : Store} : Reachable s → Reachable (redo s)
  | reset {s : Store} : Reachable s → Reachable (reset s)
  | clearAll {s : Store} : Reachable s → Reachable (clearAll s)

/-- The history invariant: cursor in `[-1, entries.length - 1]`. -/
def ImageWf (img : StoreImage) : Prop :=
  -1 ≤ img.historyIndex ∧ img.historyIndex ≤ (img.history.length : ℤ) - 1

instance : DecidablePred ImageWf := fun img => by
  unfold ImageWf; infer_instance

def StoreWf (s : Store) : Prop := ∀ img ∈ s.images, ImageWf img

instance : DecidablePred StoreWf := fun s => by
  unfold StoreWf; infer_instance

/-- Image ids are pairwise distinct (uuids from `generateId()`). -/
def IdsNodup (s : Store) : Prop := (s.images.map StoreImage.id).Nodup

/-! ## The worker buffer hand-off (canvas-utils.ts lines 121-173) -/

/-- A JS ArrayBuffer: its bytes plus the detached flag that
`postMessage(_, [buffer])` sets on every buffer in the transfer list.
A detached buffer is no longer readable by its previous owner. -/
structure JsArrayBuffer where
  bytes : List ℕ
  detached : Bool
deriving DecidableEq

/-- `buffer.slice(0)`: a fresh attached buffer holding a copy of the
bytes. -/
def sliceAll (b : JsArrayBuffer) : JsArrayBuffer := ⟨b.bytes, false⟩

/-- The send step of processImageInWorker (canvas-utils.ts 156-171):

    const buffer = imageData.data.buffer.slice(0);
    worker.postMessage({ imageData: { data: buffer, ... } }, [buffer]);

The transfer list contains the clone, so the clone is detached and the
sender's original buffer is left untouched.  Returns
(the sender's buffer after the call, the transferred clone). -/
def processImageInWorkerSend (orig : JsArrayBuffer) : JsArrayBuffer × JsArrayBuffer :=
  let buffer := sliceAll orig
  (orig, { buffer with detached := true })

/-! ## Helper lemmas -/

theorem getD_range {i n : ℕ} (h : i < n) : (List.range n).getD i 0 = i := by
  rw [List.getD_eq_getElem?_getD, List.getElem?_range h]
  rfl

theorem getD_le_of_all {l : List ℕ} {d : ℕ} (hall : ∀ y ∈ l, y ≤ 255) (hd : d ≤ 255)
    (n : ℕ) : l.getD n d ≤ 255 := by
  induction l generalizing n with
  | nil => simpa [List.getD]
  | cons a as ih =>
    cases n with
    | zero => exact hall a (by simp)
    | succ m =>
      simp only [List.getD_cons_succ]
      exact ih (fun y hy => hall y (List.mem_cons_of_mem a hy)) m

theorem findSeg_identityCurve (x : ℚ) :
    findSeg x identityCurve (⟨0, 0⟩, ⟨1, 1⟩) = (⟨0, 0⟩, ⟨1, 1⟩) := by
  unfold identityCurve findSeg
  split
  · rfl
  · rfl

theorem lutEntry_identityCurve {i : ℕ} (h : i < 256) :
    lutEntry identityCurve ⟨0, 0⟩ ⟨1, 1⟩ i = i := by
  unfold lutEntry
  simp only [findSeg_identityCurve]
  norm_num
  omega

set_option maxRecDepth 4000 in
/-- The identity curve builds the identity lookup table (spec section 8,
property 2: `buildLUT([(0,0),(1,1)])[i] = i`). -/
theorem createLUT_identityCurve : createLUT identityCurve = some (List.range 256) := by
  have hs : sortByX identityCurve = identityCurve := by with_unfolding_all rfl
  unfold createLUT
  rw [hs]
  show some ((List.range 256).map (lutEntry identityCurve ⟨0, 0⟩ ⟨1, 1⟩)) = _
  congr 1
  rw [List.map_congr_left (fun i hi => lutEntry_identityCurve (List.mem_range.mp hi))]
  exact List.map_id' _

theorem createLUT_getD_le255 {pts : List Point} {lut : List ℕ}
    (h : createLUT pts = some lut) {d : ℕ} (hd : d ≤ 255) (n : ℕ) :
    lut.getD n d ≤ 255 := by
  unfold createLUT at h
  split at h
  · exact absurd h (by simp)
  · injection h with h
    subst h
    refine getD_le_of_all (fun y hy => ?_) hd n
    obtain ⟨i, _, rfl⟩ := List.mem_map.mp hy
    exact lutEntry_le255 _ _ _ i

theorem colorMath_default (pow2 : ℚ → ℚ) (hpow : pow2 0 = 1) (r0 g0 b0 : ℚ) :
    colorMath pow2 DEFAULT_ADJUSTMENTS r0 g0 b0 = (r0, g0, b0) := by
  unfold colorMath DEFAULT_ADJUSTMENTS
  norm_num [hpow]

theorem applyColorAdjustmentsPixel_default (pow2 : ℚ → ℚ) (hpow : pow2 0 = 1)
    {p : Pixel} (hp : PixelWf p) :
    applyColorAdjustmentsPixel pow2 DEFAULT_ADJUSTMENTS p = p := by
  obtain ⟨p1, p2, p3, p4⟩ := p
  unfold applyColorAdjustmentsPixel
  rw [colorMath_default pow2 hpow]
  show Pixel.mk (toByte (p1 : ℚ)) (toByte (p2 : ℚ)) (toByte (p3 : ℚ)) p4 = _
  rw [toByte_natCast hp.1, toByte_natCast hp.2.1, toByte_natCast hp.2.2.1]

theorem curvesPixel_range256 {p : Pixel} (hp : PixelWf p) :
    curvesPixel (List.range 256) (List.range 256) (List.range 256) (List.range 256) p
      = p := by
  obtain ⟨p1, p2, p3, p4⟩ := p
  have h1 : p1 ≤ 255 := hp.1
  have h2 : p2 ≤ 255 := hp.2.1
  have h3 : p3 ≤ 255 := hp.2.2.1
  unfold curvesPixel
  show Pixel.mk ((List.range 256).getD ((List.range 256).getD p1 0) 0)
      ((List.range 256).getD ((List.range 256).getD p2 0) 0)
      ((List.range 256).getD ((List.range 256).getD p3 0) 0) p4 = _
  rw [getD_range (by omega : p1 < 256), getD_range (by omega : p1 < 256)]
  rw [getD_range (by omega : p2 < 256), getD_range (by omega : p2 < 256)]
  rw [getD_range (by omega : p3 < 256), getD_range (by omega : p3 < 256)]

theorem applyCurves_default (img : Raster) (hwf : ∀ p ∈ img.data, PixelWf p) :
    applyCurves img DEFAULT_CURVES = some img := by
  simp only [applyCurves, DEFAULT_CURVES, createLUT_identityCurve, Option.some_bind,
    mapPixels]
  rw [List.map_congr_left (fun p hp => curvesPixel_range256 (hwf p hp))]
  rw [List.map_id']

/-! ## Claim theorems -/

/-- C1: for every raster of byte pixels, the color-adjustment pass with
all scalar adjustments at their default value 0 followed by the curve
pass with all four curves equal to the identity curve [(0,0),(1,1)]
changes no pixel channel by more than 1 — in fact both passes are exact
no-ops on byte data, so every channel distance is 0. -/
theorem identity_pipeline_noop (pow2 : ℚ → ℚ) (hpow : pow2 0 = 1) (img : Raster)
    (hwf : ∀ p ∈ img.data, PixelWf p) :
    ∃ out,
      applyCurves (applyColorAdjustments pow2 img DEFAULT_ADJUSTMENTS) DEFAULT_CURVES
        = some out ∧
      ∀ i : ℕ,
        Nat.dist (out.data.getD i zeroPixel).r (img.data.getD i zeroPixel).r ≤ 1 ∧
        Nat.dist (out.data.getD i zeroPixel).g (img.data.getD i zeroPixel).g ≤ 1 ∧
        Nat.dist (out.data.getD i zeroPixel).b (img.data.getD i zeroPixel).b ≤ 1 ∧
        Nat.dist (out.data.getD i zeroPixel).a (img.data.getD i zeroPixel).a ≤ 1 := by
  have hmap : img.data.map (applyColorAdjustmentsPixel pow2 DEFAULT_ADJUSTMENTS)
      = img.data := by
    rw [List.map_congr_left
      (fun p hp => applyColorAdjustmentsPixel_default pow2 hpow (hwf p hp))]
    exact List.map_id' _
  have hcolor : applyColorAdjustments pow2 img DEFAULT_ADJUSTMENTS = img := by
    unfold applyColorAdjustments mapPixels
    rw [hmap]
  rw [hcolor]
  exact ⟨img, applyCurves_default img hwf, fun i => by simp [Nat.dist_self]⟩

/-- Witness for C1 at a concrete one-pixel raster. -/
theorem identity_pipeline_noop_witness :
    ∃ out,
      applyCurves (applyColorAdjustments (fun _ => 1) (Raster.mk 1 1 [⟨10, 20, 30, 255⟩])
          DEFAULT_ADJUSTMENTS) DEFAULT_CURVES = some out ∧
      ∀ i : ℕ,
        Nat.dist (out.data.getD i zeroPixel).r
          ((Raster.mk 1 1 [⟨10, 20, 30, 255⟩]).data.getD i zeroPixel).r ≤ 1 ∧
        Nat.dist (out.data.getD i zeroPixel).g
          ((Raster.mk 1 1 [⟨10, 20, 30, 255⟩]).data.getD i zeroPixel).g ≤ 1 ∧
        Nat.dist (out.data.getD i zeroPixel).b
          ((Raster.mk 1 1 [⟨10, 20, 30, 255⟩]).data.getD i zeroPixel).b ≤ 1 ∧
        Nat.dist (out.data.getD i zeroPixel).a
          ((Raster.mk 1 1 [⟨10, 20, 30, 255⟩]).data.getD i zeroPixel).a ≤ 1 :=
  identity_pipeline_noop (fun _ => 1) rfl (Raster.mk 1 1 [⟨10, 20, 30, 255⟩]) (by decide)

/-- C2: for any input pixel and any in-range adjustments, every channel
written by the color-adjustment pass, the curve pass, and the convolution
pass lies in [0, 255] (channels are naturals, so 0 is a lower bound by
construction; the color pass writes r,g,b only, the curve pass writes
r,g,b only, the convolution pass writes all four channels). -/
theorem clamp_invariant :
    (∀ (pow2 : ℚ → ℚ) (adj : ImageAdjustments) (p : Pixel), AdjustmentsInRange adj →
      (applyColorAdjustmentsPixel pow2 adj p).r ≤ 255 ∧
      (applyColorAdjustmentsPixel pow2 adj p).g ≤ 255 ∧
      (applyColorAdjustmentsPixel pow2 adj p).b ≤ 255) ∧
    (∀ (img : Raster) (curves : Curves) (out : Raster),
      applyCurves img curves = some out →
      ∀ p ∈ out.data, p.r ≤ 255 ∧ p.g ≤ 255 ∧ p.b ≤ 255) ∧
    (∀ (img : Raster) (kernel : List ℚ) (opq : Bool),
      ∀ p ∈ (applyConvolution img kernel opq).data, PixelWf p) := by
  refine ⟨?_, ?_, ?_⟩
  · intro pow2 adj p _
    exact ⟨toByte_le255 _, toByte_le255 _, toByte_le255 _⟩
  · intro img curves out h p hp
    unfold applyCurves at h
    obtain ⟨lutM, hM, h⟩ := Option.bind_eq_some.mp h
    obtain ⟨lutR, hR, h⟩ := Option.bind_eq_some.mp h
    obtain ⟨lutG, hG, h⟩ := Option.bind_eq_some.mp h
    obtain ⟨lutB, hB, h⟩ := Option.bind_eq_some.mp h
    injection h with h
    subst h
    obtain ⟨q, _, rfl⟩ := List.mem_map.mp hp
    exact ⟨createLUT_getD_le255 hM (by norm_num) _,
      createLUT_getD_le255 hM (by norm_num) _,
      createLUT_getD_le255 hM (by norm_num) _⟩
  · intro img kernel opq p hp
    obtain ⟨idx, _, rfl⟩ := List.mem_map.mp hp
    refine ⟨toByte_le255 _, toByte_le255 _, toByte_le255 _, ?_⟩
    dsimp only
    split
    · exact le_refl 255
    · exact toByte_le255 _

set_option maxRecDepth 40000 in
/-- Witness for C2 at concrete inputs: a pixel through the color pass at
defaults, a one-pixel raster through the identity curve pass, and a
one-pixel raster through the box-blur convolution. -/
theorem clamp_invariant_witness :
    ((applyColorAdjustmentsPixel (fun _ => 1) DEFAULT_ADJUSTMENTS ⟨12, 34, 56, 78⟩).r ≤ 255 ∧
     (applyColorAdjustmentsPixel (fun _ => 1) DEFAULT_ADJUSTMENTS ⟨12, 34, 56, 78⟩).g ≤ 255 ∧
     (applyColorAdjustmentsPixel (fun _ => 1) DEFAULT_ADJUSTMENTS ⟨12, 34, 56, 78⟩).b ≤ 255) ∧
    (∀ p ∈ (Raster.mk 1 1 [⟨1, 2, 3, 4⟩]).data,
      p.r ≤ 255 ∧ p.g ≤ 255 ∧ p.b ≤ 255) ∧
    (∀ p ∈ (applyConvolution (Raster.mk 1 1 [⟨9, 9, 9, 9⟩]) boxBlurKernel true).data,
      PixelWf p) :=
  ⟨clamp_invariant.1 (fun _ => 1) DEFAULT_ADJUSTMENTS ⟨12, 34, 56, 78⟩ (by decide),
   clamp_invariant.2.1 (Raster.mk 1 1 [⟨1, 2, 3, 4⟩]) DEFAULT_CURVES
     (Raster.mk 1 1 [⟨1, 2, 3, 4⟩]) (by with_unfolding_all rfl),
   clamp_invariant.2.2 (Raster.mk 1 1 [⟨9, 9, 9, 9⟩]) boxBlurKernel true⟩

theorem convChan_identity (img : Raster) (x y : ℕ) (sel : Pixel → ℕ)
    (hx : x < img.width) (hy : y < img.height) :
    convChan img identityKernel 3 1 x y sel
      = (sel (img.data.getD (y * img.width + x) zeroPixel) : ℚ) := by
  unfold convChan
  rw [show List.range 3 = [0, 1, 2] from rfl]
  simp only [List.foldl_cons, List.foldl_nil]
  norm_num [identityKernel]
  intro himp
  exact absurd (himp hy) (by omega)

theorem pixel_eta_of_wf {p : Pixel} (hp : PixelWf p) (hpa : p.a = 255) :
    Pixel.mk (toByte (p.r : ℚ)) (toByte (p.g : ℚ)) (toByte (p.b : ℚ)) 255 = p := by
  obtain ⟨pr, pg, pb, pa⟩ := p
  simp only at hpa
  rw [toByte_natCast hp.1, toByte_natCast hp.2.1, toByte_natCast hp.2.2.1, hpa]

/-- C5 (amended): the identity kernel leaves every pixel — interior and
edge alike — unchanged on a fully opaque raster.  Its only nonzero tap is
the center tap, which is never out of bounds, so the
skip-without-renormalization edge policy never engages for this kernel. -/
theorem applyConvolution_identityKernel (img : Raster)
    (hlen : img.data.length = img.height * img.width)
    (hwf : ∀ p ∈ img.data, PixelWf p) (ha : ∀ p ∈ img.data, p.a = 255) :
    applyConvolution img identityKernel true = img := by
  obtain ⟨w, h, data⟩ := img
  simp only at hlen hwf ha
  simp only [applyConvolution, show jsSqrtRound identityKernel.length = 3 from rfl]
  norm_num
  refine List.ext_getElem (by simpa using hlen.symm) ?_
  intro i hi1 hi2
  have hiwh : i < h * w := by simpa using hi1
  have hw : 0 < w := by
    rcases Nat.eq_zero_or_pos w with hw0 | hw0
    · subst hw0
      simp at hiwh
    · exact hw0
  have hx : i % w < w := Nat.mod_lt _ hw
  have hy : i / w < h := (Nat.div_lt_iff_lt_mul hw).mpr hiwh
  rw [List.getElem_map, List.getElem_range]
  have hidx : i / w * w + i % w = i := by
    rw [Nat.mul_comm]
    exact Nat.div_add_mod i w
  rw [convChan_identity _ _ _ _ hx hy, convChan_identity _ _ _ _ hx hy,
    convChan_identity _ _ _ _ hx hy]
  simp only [hidx]
  rw [List.getD_eq_getElem _ _ (by omega)]
  have hmem : data[i] ∈ data := List.getElem_mem _
  exact pixel_eta_of_wf (hwf _ hmem) (ha _ hmem)

/-- C5 counterexample: on the concrete 1-by-1 white opaque raster — whose
single pixel is an edge pixel — the identity kernel changes nothing,
refuting the claim that edge pixels change under this kernel. -/
theorem identity_kernel_edge_counterexample :
    applyConvolution (Raster.mk 1 1 [⟨255, 255, 255, 255⟩]) identityKernel true
      = Raster.mk 1 1 [⟨255, 255, 255, 255⟩] := by
  with_unfolding_all rfl

/-- Witness for the amended C5 at a concrete 2-by-1 raster. -/
theorem applyConvolution_identityKernel_witness :
    applyConvolution (Raster.mk 2 1 [⟨1, 2, 3, 255⟩, ⟨4, 5, 6, 255⟩]) identityKernel true
      = Raster.mk 2 1 [⟨1, 2, 3, 255⟩, ⟨4, 5, 6, 255⟩] :=
  applyConvolution_identityKernel (Raster.mk 2 1 [⟨1, 2, 3, 255⟩, ⟨4, 5, 6, 255⟩])
    (by decide) (by decide) (by decide)

theorem mem_insertByX {a p : Point} : ∀ {l : List Point},
    a ∈ insertByX p l ↔ a = p ∨ a ∈ l
  | [] => by simp [insertByX]
  | q :: rest => by
    unfold insertByX
    split
    · rw [List.mem_cons, mem_insertByX (l := rest), List.mem_cons]
      tauto
    · simp only [List.mem_cons]

theorem mem_sortByX {a : Point} : ∀ {l : List Point}, a ∈ sortByX l ↔ a ∈ l
  | [] => by simp [sortByX]
  | p :: rest => by
    show a ∈ insertByX p (sortByX rest) ↔ _
    rw [mem_insertByX, mem_sortByX (l := rest), List.mem_cons]

theorem length_insertByX (p : Point) : ∀ (l : List Point),
    (insertByX p l).length = l.length + 1
  | [] => rfl
  | q :: rest => by
    unfold insertByX
    split
    · simp [length_insertByX p rest]
    · simp

theorem length_sortByX : ∀ (l : List Point), (sortByX l).length = l.length
  | [] => rfl
  | p :: rest => by
    show (insertByX p (sortByX rest)).length = _
    rw [length_insertByX, length_sortByX rest, List.length_cons]

theorem getLastD_mem (l : List Point) (d : Point) : l.getLastD d ∈ d :: l := by
  induction l generalizing d with
  | nil => simp [List.getLastD]
  | cons a as ih =>
    rw [List.getLastD_cons]
    exact List.mem_cons_of_mem d (ih a)

/-- When every point shares the x-value `c` and the probe `x` differs from
`c`, the bracketing scan finds no segment and keeps the defaults. -/
theorem findSeg_of_allEq {c x : ℚ} : ∀ (l : List Point) (d : Point × Point),
    (∀ a ∈ l, a.x = c) → x ≠ c → findSeg x l d = d
  | [], _, _, _ => rfl
  | [_], _, _, _ => rfl
  | p :: q :: rest, d, hall, hx => by
    unfold findSeg
    rw [if_neg]
    · exact findSeg_of_allEq (q :: rest) d
        (fun a ha => hall a (List.mem_cons_of_mem p ha)) hx
    · have hp : p.x = c := hall p (by simp)
      have hq : q.x = c := hall q (by simp)
      rw [hp, hq]
      intro hcon
      exact hx (le_antisymm hcon.2 hcon.1)

/-- A LUT entry whose bracketing scan returns a zero-width segment is the
clamped rounding of the segment start's y (the `t = 0` fallback of
part_004 line 31). -/
theorem lutEntry_eq_of_seg {sorted : List Point} {d0 d1 : Point} {i : ℕ} {p0 p1 : Point}
    (hseg : findSeg ((i : ℚ) / 255) sorted (d0, d1) = (p0, p1)) (hx : p1.x = p0.x) :
    lutEntry sorted d0 d1 i = (max 0 (min 255 (round (p0.y * 255)))).toNat := by
  unfold lutEntry
  simp only [hseg]
  simp [hx]

/-- With all control points on one x-value the interpolated value is the
first sorted point's y for every LUT index: the scan either matches the
first pair or falls back to the defaults, and both give `p0 = sorted[0]`
with a zero-width segment, hence `t = 0` and `y = p0.y`. -/
theorem lutEntry_allEq {c : ℚ} (p : Point) (rest : List Point)
    (hall : ∀ a ∈ p :: rest, a.x = c) (hlast : ((p :: rest).getLastD p).x = c) (i : ℕ) :
    lutEntry (p :: rest) p ((p :: rest).getLastD p) i
      = (max 0 (min 255 (round (p.y * 255)))).toNat := by
  have hp : p.x = c := hall p (by simp)
  by_cases hxc : ((i : ℚ) / 255) = c
  · cases rest with
    | nil => exact lutEntry_eq_of_seg rfl rfl
    | cons q rest2 =>
      have hq : q.x = c := hall q (by simp)
      refine lutEntry_eq_of_seg ?_ (hq.trans hp.symm)
      unfold findSeg
      rw [if_pos (by rw [hp, hq, hxc]; exact ⟨le_refl c, le_refl c⟩)]
  · exact lutEntry_eq_of_seg (findSeg_of_allEq (p :: rest) _ hall hxc)
      (hlast.trans hp.symm)

/-- C6 counterexample: on the empty point list createLUT crashes — the
source reads `p1.x` with `p0 = sorted[0] = undefined` and throws a
TypeError (modelled as `none`), refuting the claim that the LUT build
never crashes on fewer than 2 distinct x-values. -/
theorem createLUT_empty_counterexample : createLUT ([] : List Point) = none := rfl

/-- C6 (amended): for every nonempty curve whose points all share one
x-value — a single point, or several points with the same x — building
the LUT does not crash and yields a constant mapping; the empty point
list is the one degenerate input that crashes. -/
theorem createLUT_degenerate (pts : List Point) (c : ℚ) (hne : pts ≠ [])
    (hall : ∀ p ∈ pts, p.x = c) :
    ∃ cv, createLUT pts = some (List.replicate 256 cv) := by
  rcases hs : sortByX pts with _ | ⟨p, rest⟩
  · exfalso
    have hl := congrArg List.length hs
    rw [length_sortByX] at hl
    exact hne (List.length_eq_zero.mp (by simpa using hl))
  · have hallS : ∀ a ∈ p :: rest, a.x = c := by
      intro a ha
      exact hall a (mem_sortByX.mp (by rw [hs]; exact ha))

    have hlast : ((p :: rest).getLastD p).x = c := by
      have hmem : (p :: rest).getLastD p ∈ p :: p :: rest := getLastD_mem (p :: rest) p
      rcases List.mem_cons.mp hmem with h | h
      · rw [h]
        exact hallS p (by simp)
      · exact hallS _ h
    refine ⟨(max 0 (min 255 (round (p.y * 255)))).toNat, ?_⟩
    unfold createLUT
    rw [hs]
    show some ((List.range 256).map (lutEntry (p :: rest) p ((p :: rest).getLastD p))) = _
    congr 1
    refine List.eq_replicate_iff.mpr ⟨by simp, ?_⟩
    intro b hb
    obtain ⟨i, _, rfl⟩ := List.mem_map.mp hb
    exact lutEntry_allEq p rest hallS hlast i

/-- Witness for the amended C6 at a concrete one-point curve. -/
theorem createLUT_degenerate_witness :
    ∃ cv, createLUT [Point.mk (1/2) (3/4)] = some (List.replicate 256 cv) :=
  createLUT_degenerate [Point.mk (1/2) (3/4)] (1/2) (by simp) (by simp)

/-- The color pass never reads the blur field (it destructures only the
eight color scalars), so overwriting blur leaves it unchanged. -/
theorem applyColorAdjustments_blur (pow2 : ℚ → ℚ) (img : Raster)
    (adj : ImageAdjustments) (b : ℚ) :
    applyColorAdjustments pow2 img { adj with blur := b }
      = applyColorAdjustments pow2 img adj := rfl

/-- C9: the worker pipeline reads `blur` only through the test
`blur > 0`; the box kernel is the fixed constant 1/9 per cell, so any two
positive blur values produce identical output rasters, all other inputs
being equal. -/
theorem blur_magnitude_irrelevant (pow2 : ℚ → ℚ) (img : Raster) (adj : ImageAdjustments)
    (b1 b2 : ℚ) (h1 : 0 < b1) (h2 : 0 < b2) :
    workerProcess pow2 img { adj with blur := b1 }
      = workerProcess pow2 img { adj with blur := b2 } := by
  simp [workerProcess, h1, h2, applyColorAdjustments_blur]

/-- Witness for C9 at a concrete raster with blur 1 versus blur 2. -/
theorem blur_magnitude_irrelevant_witness :
    workerProcess (fun _ => 1) (Raster.mk 1 1 [⟨7, 7, 7, 255⟩])
        { DEFAULT_ADJUSTMENTS with blur := 1 }
      = workerProcess (fun _ => 1) (Raster.mk 1 1 [⟨7, 7, 7, 255⟩])
        { DEFAULT_ADJUSTMENTS with blur := 2 } :=
  blur_magnitude_irrelevant (fun _ => 1) (Raster.mk 1 1 [⟨7, 7, 7, 255⟩])
    DEFAULT_ADJUSTMENTS 1 2 (by decide) (by decide)

theorem applyCurves_alpha {img out : Raster} {curves : Curves}
    (h : applyCurves img curves = some out) :
    out.data.map Pixel.a = img.data.map Pixel.a := by
  unfold applyCurves at h
  obtain ⟨lM, _, h⟩ := Option.bind_eq_some.mp h
  obtain ⟨lR, _, h⟩ := Option.bind_eq_some.mp h
  obtain ⟨lG, _, h⟩ := Option.bind_eq_some.mp h
  obtain ⟨lB, _, h⟩ := Option.bind_eq_some.mp h
  injection h with h
  subst h
  show (img.data.map _).map Pixel.a = _
  rw [List.map_map]
  rfl

/-- C7 (amended): when neither spatial pass runs (blur and sharpness not
positive), the worker pipeline preserves every pixel's alpha — the color
pass never writes alpha and the curve pass copies it — so rotation
background pixels with alpha 0 stay fully transparent.  With blur or
sharpness positive the convolution runs with its default opaque = true
and overwrites every alpha with 255 (see the counterexample). -/
theorem rotation_background_alpha (pow2 : ℚ → ℚ) (img : Raster) (adj : ImageAdjustments)
    (hb : ¬ 0 < adj.blur) (hs : ¬ 0 < adj.sharpness) (out : Raster)
    (hout : workerProcess pow2 img adj = some out) :
    out.data.map Pixel.a = img.data.map Pixel.a := by
  unfold workerProcess at hout
  obtain ⟨img2, hc, heq⟩ := Option.map_eq_some'.mp hout
  simp only [if_neg hb, if_neg hs] at heq
  subst heq
  calc img2.data.map Pixel.a
      = (applyColorAdjustments pow2 img adj).data.map Pixel.a := applyCurves_alpha hc
    _ = img.data.map Pixel.a := by
        show (img.data.map _).map Pixel.a = _
        rw [List.map_map]
        rfl

set_option maxRecDepth 40000 in
/-- Witness for the amended C7 at a concrete transparent pixel. -/
theorem rotation_background_alpha_witness :
    (Raster.mk 1 1 [⟨3, 4, 5, 0⟩]).data.map Pixel.a
      = (Raster.mk 1 1 [⟨3, 4, 5, 0⟩]).data.map Pixel.a :=
  rotation_background_alpha (fun _ => 1) (Raster.mk 1 1 [⟨3, 4, 5, 0⟩])
    DEFAULT_ADJUSTMENTS (by decide) (by decide) (Raster.mk 1 1 [⟨3, 4, 5, 0⟩])
    (by with_unfolding_all rfl)

set_option maxRecDepth 40000 in
/-- C7 counterexample: a fully transparent pixel (alpha 0, as produced by
the rotation background) emerges from the worker pipeline with alpha 255
as soon as blur is positive, because the box-blur convolution runs with
opaque = true; so the output is not transparent for all adjustment
values. -/
theorem rotation_background_alpha_counterexample :
    workerProcess (fun _ => 1) (Raster.mk 1 1 [⟨0, 0, 0, 0⟩])
        { DEFAULT_ADJUSTMENTS with blur := 1 }
      = some (Raster.mk 1 1 [⟨0, 0, 0, 255⟩]) ∧
    ((Raster.mk 1 1 [⟨0, 0, 0, 0⟩]).data.getD 0 zeroPixel).a = 0 ∧
    ((Raster.mk 1 1 [⟨0, 0, 0, 255⟩]).data.getD 0 zeroPixel).a = 255 :=
  ⟨by with_unfolding_all rfl, rfl, rfl⟩

/-! ## Store lemmas -/

theorem imageWf_createImageData (id data : String) : ImageWf (createImageData id data) :=
  ⟨le_refl _, by simp [createImageData]⟩

/-- A per-image update that never changes ids leaves the id list
unchanged. -/
theorem ids_updateImage (id : String) (F : StoreImage → StoreImage)
    (hF : ∀ img, (F img).id = img.id) (l : List StoreImage) :
    (updateImage id F l).map StoreImage.id = l.map StoreImage.id := by
  unfold updateImage
  rw [List.map_map]
  refine List.map_congr_left (fun a _ => ?_)
  by_cases h : (a.id == id) = true
  · simp [Function.comp, h, hF]
  · simp [Function.comp, h]

/-- A per-image update whose result is well-formed for every input image
preserves the store invariant. -/
theorem wf_updateImage_of_all {l : List StoreImage} {id : String}
    {F : StoreImage → StoreImage} (hl : ∀ img ∈ l, ImageWf img)
    (hF : ∀ img ∈ l, ImageWf img → ImageWf (F img)) :
    ∀ img ∈ updateImage id F l, ImageWf img := by
  intro img hm
  obtain ⟨a, ha, rfl⟩ := List.mem_map.mp hm
  by_cases h : (a.id == id) = true
  · rw [if_pos h]
    exact hF a ha (hl a ha)
  · rw [if_neg h]
    exact hl a ha

/-- With pairwise-distinct ids the only image hit by the per-image update
is the one `find?` returned, so well-formedness of `F current`
suffices. -/
theorem wf_updateImage_of_find {l : List StoreImage} {id : String}
    {current : StoreImage} {F : StoreImage → StoreImage}
    (hnd : (l.map StoreImage.id).Nodup)
    (hfind : l.find? (fun img => img.id == id) = some current)
    (hl : ∀ img ∈ l, ImageWf img) (hFc : ImageWf (F current)) :
    ∀ img ∈ updateImage id F l, ImageWf img := by
  intro img hm
  obtain ⟨a, ha, rfl⟩ := List.mem_map.mp hm
  by_cases h : (a.id == id) = true
  · have hcmem : current ∈ l := List.mem_of_find?_eq_some hfind
    have hcid : current.id = id := by
      have := List.find?_some hfind
      simpa using this
    have hac : a = current := by
      refine List.inj_on_of_nodup_map hnd ha hcmem ?_
      rw [hcid]
      exact eq_of_beq h
    rw [if_pos h, hac]
    exact hFc
  · rw [if_neg h]
    exact hl a ha

theorem nodup_updateImage {l : List StoreImage} (hnd : (l.map StoreImage.id).Nodup)
    (id : String) (F : StoreImage → StoreImage) (hF : ∀ img, (F img).id = img.id) :
    ((updateImage id F l).map StoreImage.id).Nodup := by
  rw [ids_updateImage id F hF]
  exact hnd

/-- find? for an id commutes with the id-preserving per-image update. -/
theorem find?_updateImage (id : String) (F : StoreImage → StoreImage)
    (hF : ∀ img, (F img).id = img.id) (l : List StoreImage) :
    (updateImage id F l).find? (fun img => img.id == id)
      = (l.find? (fun img => img.id == id)).map
          (fun img => if img.id == id then F img else img) := by
  unfold updateImage
  induction l with
  | nil => rfl
  | cons a as ih =>
    rw [List.map_cons]
    by_cases h : (a.id == id) = true
    · have hFa : ((F a).id == id) = true := by
        rw [hF]
        exact h
      rw [if_pos h]
      rw [@List.find?_cons_of_pos StoreImage (fun img => img.id == id) (F a)
        (List.map (fun img => if (img.id == id) = true then F img else img) as) hFa]
      rw [@List.find?_cons_of_pos StoreImage (fun img => img.id == id) a as h]
      rw [Option.map_some']
      rw [if_pos h]
    · rw [if_neg h]
      rw [@List.find?_cons_of_neg StoreImage (fun img => img.id == id) a
        (List.map (fun img => if (img.id == id) = true then F img else img) as) h]
      rw [@List.find?_cons_of_neg StoreImage (fun img => img.id == id) a as h]
      exact ih

/-- The combined store invariant carried through the induction: all
histories are well-formed and ids are pairwise distinct. -/
theorem reachable_inv : ∀ {s : Store}, Reachable s → StoreWf s ∧ IdsNodup s := by
  intro s h
  induction h with
  | init =>
    exact ⟨fun img hm => absurd hm (by simp [initialStore]),
      by simp [initialStore, IdsNodup]⟩
  | setImage id data _ _ =>
    refine ⟨fun img hm => ?_, by simp [setImage, IdsNodup]⟩
    rw [show (setImage id data _).images = [createImageData id data] from rfl] at hm
    rw [List.mem_singleton.mp hm]
    exact imageWf_createImageData id data
  | addImage id data hfresh _ ih =>
    obtain ⟨ihwf, ihnd⟩ := ih
    constructor
    · intro img hm
      rw [show (addImage id data _).images = _ ++ [createImageData id data] from rfl] at hm
      rcases List.mem_append.mp hm with hm | hm
      · exact ihwf img hm
      · rw [List.mem_singleton.mp hm]
        exact imageWf_createImageData id data
    · show ((_ ++ [createImageData id data]).map StoreImage.id).Nodup
      rw [List.map_append]
      refine List.Nodup.append ihnd (by simp) ?_
      intro a ha hb
      obtain ⟨img, hmem, rfl⟩ := List.mem_map.mp ha
      simp only [List.map_cons, List.map_nil, List.mem_singleton] at hb
      exact hfresh img hmem (by simpa [createImageData] using hb)
  | removeImage rid _ ih =>
    obtain ⟨ihwf, ihnd⟩ := ih
    refine ⟨fun img hm => ihwf img (List.mem_of_mem_filter hm), ?_⟩
    show ((List.filter _ _).map StoreImage.id).Nodup
    exact List.Nodup.sublist (List.Sublist.map _ (List.filter_sublist _)) ihnd
  | setCurrentImage id _ ih => exact ih
  | setPreviewImage d _ ih =>
    obtain ⟨ihwf, ihnd⟩ := ih
    rename_i s' _
    rcases hcid : s'.currentImageId with _ | id
    · simp only [setPreviewImage, hcid]
      exact ⟨ihwf, ihnd⟩
    · simp only [setPreviewImage, hcid]
      refine ⟨wf_updateImage_of_all ihwf (fun img _ hw => ?_),
        nodup_updateImage ihnd id _ ?_⟩
      · exact hw
      · intro img
        rfl
  | setProcessedImage d _ ih =>
    obtain ⟨ihwf, ihnd⟩ := ih
    rename_i s' _
    rcases hcid : s'.currentImageId with _ | id
    · simp only [setProcessedImage, hcid]
      exact ⟨ihwf, ihnd⟩
    · simp only [setProcessedImage, hcid]
      refine ⟨wf_updateImage_of_all ihwf (fun img _ hw => ?_),
        nodup_updateImage ihnd id _ ?_⟩
      · exact hw
      · intro img
        rfl
  | updateAdjustments f _ ih =>
    obtain ⟨ihwf, ihnd⟩ := ih
    rename_i s' _
    rcases hcid : s'.currentImageId with _ | id
    · simp only [updateAdjustments, hcid]
      exact ⟨ihwf, ihnd⟩
    · simp only [updateAdjustments, hcid]
      rcases hfind : s'.images.find? (fun img => img.id == id) with _ | current
      · simp only [hfind]
        exact ⟨ihwf, ihnd⟩
      · simp only [hfind]
        refine ⟨wf_updateImage_of_all ihwf (fun img _ _ => ?_),
          nodup_updateImage ihnd id _ ?_⟩
        · refine ⟨?_, le_refl _⟩
          show -1 ≤ (((current.history.take (current.historyIndex + 1).toNat ++
            [Snapshot.mk current.adjustments current.crop]).length : ℤ)) - 1
          have h1 : 1 ≤ (current.history.take (current.historyIndex + 1).toNat ++
            [Snapshot.mk current.adjustments current.crop]).length := by simp
          omega
        · intro img
          rfl
  | updateCrop f _ ih =>
    obtain ⟨ihwf, ihnd⟩ := ih
    rename_i s' _
    rcases hcid : s'.currentImageId with _ | id
    · simp only [updateCrop, hcid]
      exact ⟨ihwf, ihnd⟩
    · simp only [updateCrop, hcid]
      rcases hfind : s'.images.find? (fun img => img.id == id) with _ | current
      · simp only [hfind]
        exact ⟨ihwf, ihnd⟩
      · simp only [hfind]
        refine ⟨wf_updateImage_of_all ihwf (fun img _ _ => ?_),
          nodup_updateImage ihnd id _ ?_⟩
        · refine ⟨?_, le_refl _⟩
          show -1 ≤ (((current.history.take (current.historyIndex + 1).toNat ++
            [Snapshot.mk current.adjustments current.crop]).length : ℤ)) - 1
          have h1 : 1 ≤ (current.history.take (current.historyIndex + 1).toNat ++
            [Snapshot.mk current.adjustments current.crop]).length := by simp
          omega
        · intro img
          rfl
  | undo _ ih =>
    obtain ⟨ihwf, ihnd⟩ := ih
    rename_i s' _
    rcases hcid : s'.currentImageId with _ | id
    · simp only [undo, hcid]
      exact ⟨ihwf, ihnd⟩
    · simp only [undo, hcid]
      rcases hfind : s'.images.find? (fun img => img.id == id) with _ | current
      · simp only [hfind]
        exact ⟨ihwf, ihnd⟩
      · simp only [hfind]
        by_cases hneg : current.historyIndex < 0
        · simp only [if_pos hneg]
          exact ⟨ihwf, ihnd⟩
        · simp only [if_neg hneg]
          have hc := ihwf current (List.mem_of_find?_eq_some hfind)
          refine ⟨wf_updateImage_of_find ihnd hfind ihwf ⟨?_, ?_⟩,
            nodup_updateImage ihnd id _ ?_⟩
          · show -1 ≤ current.historyIndex - 1
            omega
          · show current.historyIndex - 1 ≤ (current.history.length : ℤ) - 1
            have h2 := hc.2
            omega
          · intro img
            rfl
  | redo _ ih =>
    obtain ⟨ihwf, ihnd⟩ := ih
    rename_i s' _
    rcases hcid : s'.currentImageId with _ | id
    · simp only [redo, hcid]
      exact ⟨ihwf, ihnd⟩
    · simp only [redo, hcid]
      rcases hfind : s'.images.find? (fun img => img.id == id) with _ | current
      · simp only [hfind]
        exact ⟨ihwf, ihnd⟩
      · simp only [hfind]
        by_cases hneg : (current.history.length : ℤ) - 1 ≤ current.historyIndex
        · simp only [if_pos hneg]
          exact ⟨ihwf, ihnd⟩
        · simp only [if_neg hneg]
          have hc := ihwf current (List.mem_of_find?_eq_some hfind)
          refine ⟨wf_updateImage_of_find ihnd hfind ihwf ⟨?_, ?_⟩,
            nodup_updateImage ihnd id _ ?_⟩
          · show -1 ≤ current.historyIndex + 1
            have h1 := hc.1
            omega
          · show current.historyIndex + 1 ≤ (current.history.length : ℤ) - 1
            omega
          · intro img
            rfl
  | reset _ ih =>
    obtain ⟨ihwf, ihnd⟩ := ih
    rename_i s' _
    rcases hcid : s'.currentImageId with _ | id
    · simp only [reset, hcid]
      exact ⟨ihwf, ihnd⟩
    · simp only [reset, hcid]
      refine ⟨wf_updateImage_of_all ihwf (fun img _ _ => ?_),
        nodup_updateImage ihnd id _ ?_⟩
      · refine ⟨le_refl _, ?_⟩
        show (-1 : ℤ) ≤ ((([] : List Snapshot).length : ℤ)) - 1
        decide
      · intro img
        rfl
  | clearAll _ _ =>
    exact ⟨fun img hm => absurd hm (by simp [clearAll]),
      by simp [clearAll, IdsNodup]⟩


/-- C4: every reachable store satisfies the history invariant
historyIndex ∈ [-1, history.length - 1] — so each store action
(updateAdjustments, updateCrop, undo, redo, reset and the image-management
actions) preserves it — and committing a mutation while
historyIndex < history.length - 1 truncates the entries after the cursor
before appending the pre-mutation snapshot: the new history keeps exactly
the first historyIndex + 1 old entries unchanged, ends with the
pre-mutation snapshot, and the cursor moves to the new end. -/
theorem history_invariant :
    (∀ s : Store, Reachable s → StoreWf s) ∧
    (∀ (s : Store) (id : String) (current : StoreImage)
      (f : ImageAdjustments → ImageAdjustments),
      s.currentImageId = some id →
      s.images.find? (fun img => img.id == id) = some current →
      ImageWf current →
      current.historyIndex < (current.history.length : ℤ) - 1 →
      ∃ img2,
        (updateAdjustments f s).images.find? (fun img => img.id == id) = some img2 ∧
        (img2.history.length : ℤ) = current.historyIndex + 2 ∧
        (∀ j : ℕ, (j : ℤ) ≤ current.historyIndex →
          img2.history.getD j defaultSnapshot
            = current.history.getD j defaultSnapshot) ∧
        img2.history.getLast? = some (Snapshot.mk current.adjustments current.crop) ∧
        img2.historyIndex = (img2.history.length : ℤ) - 1) := by
  constructor
  · exact fun s h => (reachable_inv h).1
  · intro s id current f hcid hfind hwfc hlt
    obtain ⟨hwf1, hwf2⟩ := hwfc
    have hcomm := find?_updateImage id
      (fun img =>
        { img with
          adjustments := f current.adjustments
          history := current.history.take (current.historyIndex + 1).toNat ++
            [Snapshot.mk current.adjustments current.crop]
          historyIndex := ((current.history.take (current.historyIndex + 1).toNat ++
            [Snapshot.mk current.adjustments current.crop]).length : ℤ) - 1 })
      (fun img => rfl) s.images
    have hcur : (current.id == id) = true := by
      simpa using List.find?_some hfind
    refine ⟨{ current with
        adjustments := f current.adjustments
        history := current.history.take (current.historyIndex + 1).toNat ++
          [Snapshot.mk current.adjustments current.crop]
        historyIndex := ((current.history.take (current.historyIndex + 1).toNat ++
          [Snapshot.mk current.adjustments current.crop]).length : ℤ) - 1 },
      ?_, ?_, ?_, ?_, ?_⟩
    · simp only [updateAdjustments, hcid, hfind]
      rw [hcomm, hfind, Option.map_some', if_pos hcur]
    · show ((current.history.take (current.historyIndex + 1).toNat ++
        [Snapshot.mk current.adjustments current.crop]).length : ℤ)
          = current.historyIndex + 2
      rw [List.length_append, List.length_take]
      simp only [List.length_cons, List.length_nil]
      omega
    · intro j hj
      show (current.history.take (current.historyIndex + 1).toNat ++
        [Snapshot.mk current.adjustments current.crop]).getD j defaultSnapshot
          = current.history.getD j defaultSnapshot
      rw [List.getD_eq_getElem?_getD, List.getD_eq_getElem?_getD,
        List.getElem?_append_left (by rw [List.length_take]; omega),
        List.getElem?_take_of_lt (by omega)]
    · exact List.getLast?_concat _
    · rfl

set_option maxRecDepth 8000 in
set_option maxHeartbeats 2000000 in
/-- Witness for C4: part 1 at a concrete reachable store (add image,
commit twice, undo), part 2 at that store, whose cursor sits strictly
before the end of its two-entry history. -/
theorem history_invariant_witness :
    StoreWf (undo (updateAdjustments (fun a => { a with exposure := 20 })
      (updateAdjustments (fun a => { a with exposure := 10 })
        (addImage "a" "d" initialStore)))) ∧
    (∃ img2,
      (updateAdjustments (fun a => { a with exposure := 30 })
        (undo (updateAdjustments (fun a => { a with exposure := 20 })
          (updateAdjustments (fun a => { a with exposure := 10 })
            (addImage "a" "d" initialStore))))).images.find?
          (fun img => img.id == "a") = some img2 ∧
      (img2.history.length : ℤ) = (0 : ℤ) + 2 ∧
      (∀ j : ℕ, (j : ℤ) ≤ (0 : ℤ) →
        img2.history.getD j defaultSnapshot
          = [Snapshot.mk DEFAULT_ADJUSTMENTS DEFAULT_CROP,
             Snapshot.mk { DEFAULT_ADJUSTMENTS with exposure := 10 } DEFAULT_CROP].getD j
              defaultSnapshot) ∧
      img2.history.getLast? = some (Snapshot.mk
        { DEFAULT_ADJUSTMENTS with exposure := 10 } DEFAULT_CROP) ∧
      img2.historyIndex = (img2.history.length : ℤ) - 1) := by
  constructor
  · exact history_invariant.1 _
      (Reachable.undo (Reachable.updateAdjustments _ (Reachable.updateAdjustments _
        (Reachable.addImage "a" "d" (by simp [initialStore]) Reachable.init))))
  · exact history_invariant.2
      (undo (updateAdjustments (fun a => { a with exposure := 20 })
        (updateAdjustments (fun a => { a with exposure := 10 })
          (addImage "a" "d" initialStore)))) "a"
      { id := "a", originalImage := "d", previewImage := none,
        processedImage := some "d",
        adjustments := { DEFAULT_ADJUSTMENTS with exposure := 10 },
        crop := DEFAULT_CROP,
        history := [Snapshot.mk DEFAULT_ADJUSTMENTS DEFAULT_CROP,
          Snapshot.mk { DEFAULT_ADJUSTMENTS with exposure := 10 } DEFAULT_CROP],
        historyIndex := 0 }
      (fun a => { a with exposure := 30 }) rfl (by with_unfolding_all rfl)
      (by decide) (by decide)

set_option maxRecDepth 8000 in
/-- C3 counterexample: on a fresh image commit exposure 10 then
exposure 20; the editable state before undo has exposure 20, but after
undo() followed by redo() it has exposure 10 — redo restores the stored
pre-mutation snapshot, not the state that was current before the undo. -/
theorem undo_redo_counterexample :
    (getCurrentImage (redo (undo
        (updateAdjustments (fun a => { a with exposure := 20 })
          (updateAdjustments (fun a => { a with exposure := 10 })
            (addImage "a" "img" initialStore)))))).map
        (fun c => (c.adjustments, c.crop))
      ≠ (getCurrentImage
        (updateAdjustments (fun a => { a with exposure := 20 })
          (updateAdjustments (fun a => { a with exposure := 10 })
            (addImage "a" "img" initialStore)))).map
        (fun c => (c.adjustments, c.crop)) := by
  decide

set_option maxHeartbeats 4000000 in
/-- C3 (amended): after commit(snapshot0) then commit(snapshot1) on a
fresh image, undo() followed by redo() restores historyIndex to its
pre-undo value but sets the editable state (adjustments, crop) to
entries[historyIndex] — the pre-mutation snapshot of the second commit,
which is also exactly the state reached by the undo — rather than the
editable state held immediately before the undo. -/
theorem undo_redo_restores_last_snapshot
    (f1 f2 : ImageAdjustments → ImageAdjustments) (imgData : String) :
    (getCurrentImage (redo (undo (updateAdjustments f2 (updateAdjustments f1
        (addImage "a" imgData initialStore)))))).map (fun c => c.historyIndex)
      = (getCurrentImage (updateAdjustments f2 (updateAdjustments f1
        (addImage "a" imgData initialStore)))).map (fun c => c.historyIndex) ∧
    (getCurrentImage (redo (undo (updateAdjustments f2 (updateAdjustments f1
        (addImage "a" imgData initialStore)))))).map (fun c => (c.adjustments, c.crop))
      = some (f1 DEFAULT_ADJUSTMENTS, DEFAULT_CROP) ∧
    (getCurrentImage (redo (undo (updateAdjustments f2 (updateAdjustments f1
        (addImage "a" imgData initialStore)))))).map (fun c => (c.adjustments, c.crop))
      = (getCurrentImage (undo (updateAdjustments f2 (updateAdjustments f1
        (addImage "a" imgData initialStore))))).map (fun c => (c.adjustments, c.crop)) :=
  ⟨rfl, rfl, rfl⟩

/-- C10: when currentImageId is null, or no image in the store matches
it, updateAdjustments, updateCrop, undo, redo and reset all leave the
entire store state unchanged. -/
theorem missing_image_noop (s : Store)
    (h : s.currentImageId = none ∨
      ∃ id, s.currentImageId = some id ∧ ∀ img ∈ s.images, img.id ≠ id) :
    (∀ f, updateAdjustments f s = s) ∧ (∀ g, updateCrop g s = s) ∧
    undo s = s ∧ redo s = s ∧ reset s = s := by
  rcases h with hnone | ⟨id, hid, hno⟩
  · refine ⟨fun f => ?_, fun g => ?_, ?_, ?_, ?_⟩ <;>
      simp [updateAdjustments, updateCrop, undo, redo, reset, hnone]
  · have hfind : s.images.find? (fun img => img.id == id) = none := by
      rw [List.find?_eq_none]
      intro img hm
      simpa using hno img hm
    have hmap : updateImage id
        (fun img =>
          { img with
            adjustments := DEFAULT_ADJUSTMENTS
            crop := DEFAULT_CROP
            history := []
            historyIndex := -1 }) s.images = s.images := by
      unfold updateImage
      rw [List.map_congr_left (fun img hm => if_neg (by simpa using hno img hm))]
      exact List.map_id' _
    have hreset : reset s = s := by
      simp only [reset, hid, hmap]
      rw [← hid]
    refine ⟨fun f => ?_, fun g => ?_, ?_, ?_, hreset⟩ <;>
      simp [updateAdjustments, updateCrop, undo, redo, hid, hfind]

/-- Witness for C10 at the initial store (no current image). -/
theorem missing_image_noop_witness :
    (∀ f, updateAdjustments f initialStore = initialStore) ∧
    (∀ g, updateCrop g initialStore = initialStore) ∧
    undo initialStore = initialStore ∧ redo initialStore = initialStore ∧
    reset initialStore = initialStore :=
  missing_image_noop initialStore (Or.inl rfl)

/-- C8 counterexample: after the send step of processImageInWorker the
sender's original buffer is still attached (readable) and its bytes are
intact — the claim that the original buffer is no longer readable by the
sender is false: the code clones the buffer (`buffer.slice(0)`) and
transfers only the clone. -/
theorem worker_transfer_counterexample :
    (processImageInWorkerSend (JsArrayBuffer.mk [1, 2, 3, 4] false)).1.detached = false ∧
    (processImageInWorkerSend (JsArrayBuffer.mk [1, 2, 3, 4] false)).1.bytes
      = [1, 2, 3, 4] :=
  ⟨rfl, rfl⟩

/-- C8 (amended): for every attached buffer handed to
processImageInWorker, the send step leaves the sender's original buffer
untouched and readable; what is transferred — and detached — is a fresh
clone with equal bytes. -/
theorem worker_transfer_clone (orig : JsArrayBuffer) (h : orig.detached = false) :
    (processImageInWorkerSend orig).1 = orig ∧
    (processImageInWorkerSend orig).2.bytes = orig.bytes ∧
    (processImageInWorkerSend orig).2.detached = true :=
  ⟨rfl, rfl, rfl⟩

/-- Witness for the amended C8 at a concrete buffer. -/
theorem worker_transfer_clone_witness :
    (processImageInWorkerSend (JsArrayBuffer.mk [9, 8] false)).1
      = JsArrayBuffer.mk [9, 8] false ∧
    (processImageInWorkerSend (JsArrayBuffer.mk [9, 8] false)).2.bytes = [9, 8] ∧
    (processImageInWorkerSend (JsArrayBuffer.mk [9, 8] false)).2.detached = true :=
  worker_transfer_clone (JsArrayBuffer.mk [9, 8] false) rfl

end LumaForge
